import Mathlib

/-!
Verification of the `nastro` ephemeral ring-buffer store.

The definitions below are a shallow embedding of `src/ephemeral/ephemeral.go`
(the current version: `New` with options, `Save`/`Replace` with an event
policy, `Query` with a filter policy) together with the shared declarations of
`src/store.go` (`IsValidReplacement`, the error values).

Modelling conventions:
- Go `*nostr.Event` slots become `Option Event`; `nil` is `none`.
- Go `int` fields (`Kind`, `CreatedAt`) become `Int`; slice indices and
  capacities are `Nat` (all reachable Go values of these are non-negative).
- A Go function that can panic (out-of-range index, modulo by zero) is
  embedded as an `Option`-valued function; `none` is abnormal termination.
- A returned Go `error` is an `Option Err` (or `Except Err` for results):
  `none` is Go `nil`.
- `nostr.Filter.Matches` is an external collaborator (library `go-nostr`);
  it is embedded as an opaque boolean predicate carried inside `Filter`,
  exactly as the store code treats it.  The `Limit`/`LimitZero` fields are
  carried as data because policies and the spec refer to them.
- `slices.SortFunc` with comparator `cmp.Compare(e2.CreatedAt, e1.CreatedAt)`
  is embedded as `List.mergeSort` with the boolean relation
  `b.created_at ≤ a.created_at`.  Both are comparison sorts producing a
  permutation of the input that is pairwise-sorted for the comparator; on
  two-element inputs with equal keys both leave the input order unchanged
  (Go uses insertion sort below 12 elements, swapping only on strict
  inversion).
-/

namespace Nastro

/-- Embedding of `nostr.Event` (the fields the store reads). -/
structure Event where
  id : String
  pubkey : String
  created_at : Int
  kind : Int
  tags : List (List String)
  content : String
  sig : String
deriving DecidableEq, Repr

/-- Embedding of go-nostr `IsReplaceableKind`. -/
def isReplaceableKind (kind : Int) : Bool :=
  kind == 0 || kind == 3 || (decide (10000 ≤ kind) && decide (kind < 20000))

/-- Embedding of go-nostr `IsAddressableKind`. -/
def isAddressableKind (kind : Int) : Bool :=
  decide (30000 ≤ kind) && decide (kind < 40000)

/-- Embedding of `nastro.IsValidReplacement` (src/store.go). -/
def isValidReplacement (kind : Int) : Bool :=
  isReplaceableKind kind || isAddressableKind kind

/-- Embedding of go-nostr `Tags.GetD`: the value carried by the first tag
named "d", or the empty string. -/
def getD : List (List String) → String
  | [] => ""
  | t :: rest => if t.head? == some "d" then (t[1]?).getD "" else getD rest

/-- Embedding of the nastro error values relevant to the store
(src/store.go); `Replace` wraps `ErrInvalidReplacement` with `fmt.Errorf`,
which `errors.Is` still identifies, so the wrapper is dropped here.
`custom` stands for any error produced by an injected policy. -/
inductive Err where
  | invalidReplacement : Err
  | unspecifiedLimit : Err
  | custom : String → Err
deriving DecidableEq, Repr

/-- Embedding of `nostr.Filter`: the store only ever calls `Matches` and the
policies only read `Limit`/`LimitZero`, so the declarative fields are
abstracted into the `matches` predicate. -/
structure Filter where
  matchesEv : Event → Bool
  limit : Int
  limitZero : Bool

/-- Embedding of `ephemeral.Store`: the slot array, the write cursor, the
capacity, and the two injected policies (`nastro.EventPolicy`,
`nastro.FilterPolicy`).  The `sync.RWMutex` has no sequential content. -/
structure Store where
  events : List (Option Event)
  write : Nat
  capacity : Nat
  validateEvent : Event → Option Err
  sanitizeFilters : List Filter → List Filter × Option Err

/-- The event policy `ephemeral.New` installs by default: accept everything. -/
def defaultValidate : Event → Option Err := fun _ => none

/-- The filter policy `ephemeral.New` installs by default:
`func(...nostr.Filter) (nostr.Filters, error) { return nil, nil }` —
every filter list is replaced by the empty list, with no error. -/
def defaultSanitize : List Filter → List Filter × Option Err := fun _ => ([], none)

/-- A pass-through filter policy (installable via `WithFilterPolicy`):
return the filters unchanged, with no error. -/
def passSanitize : List Filter → List Filter × Option Err := fun fs => (fs, none)

/-- Embedding of `ephemeral.New(WithCapacity c)`: `c` empty slots, cursor 0,
default policies.  (`New()` itself is this at `c = DefaultCapacity = 1000`.) -/
def newStore (c : Nat) : Store :=
  { events := List.replicate c none
    write := 0
    capacity := c
    validateEvent := defaultValidate
    sanitizeFilters := defaultSanitize }

/-- Embedding of `Store.Size`: count the non-nil slots. -/
def Store.size (s : Store) : Nat :=
  s.events.countP (fun slot => slot.isSome)

/-- Embedding of `Store.Save`: validate, then write into `events[write]` and
advance the cursor modulo capacity.  `none` models the panic when the cursor
is out of range or the capacity is zero. -/
def Store.save (s : Store) (e : Event) : Option (Option Err × Store) :=
  match s.validateEvent e with
  | some err => some (some err, s)
  | none =>
    if s.write < s.events.length ∧ 0 < s.capacity then
      some (none,
        { s with events := s.events.set s.write (some e)
                 write := (s.write + 1) % s.capacity })
    else none

/-- Embedding of `ephemeral.isReplacementCandidate`. -/
def isReplacementCandidate (e1 e2 : Event) : Bool :=
  if isReplaceableKind e1.kind then
    e1.kind == e2.kind && e1.pubkey == e2.pubkey
  else if isAddressableKind e1.kind then
    e1.kind == e2.kind && e1.pubkey == e2.pubkey && getD e1.tags == getD e2.tags
  else false

/-- The scan inside `Store.Replace`: index and content of the first non-nil
slot holding a replacement candidate for `e`. -/
def findCandidate (e : Event) : List (Option Event) → Option (Nat × Event)
  | [] => none
  | slot :: rest =>
    match slot with
    | some st =>
      if isReplacementCandidate e st then some (0, st)
      else (findCandidate e rest).map (fun p => (p.1 + 1, p.2))
    | none => (findCandidate e rest).map (fun p => (p.1 + 1, p.2))

/-- Embedding of `Store.Replace`: reject invalid kinds, validate, scan for
the first candidate; replace it in place if strictly newer, refuse if not;
fall back to the `Save` write path when no candidate exists. -/
def Store.replace (s : Store) (e : Event) : Option (Bool × Option Err × Store) :=
  if isValidReplacement e.kind = false then
    some (false, some .invalidReplacement, s)
  else
    match s.validateEvent e with
    | some err => some (false, some err, s)
    | none =>
      match findCandidate e s.events with
      | some (i, st) =>
        if st.created_at < e.created_at then
          some (true, none, { s with events := s.events.set i (some e) })
        else
          some (false, none, s)
      | none =>
        if s.write < s.events.length ∧ 0 < s.capacity then
          some (true, none,
            { s with events := s.events.set s.write (some e)
                     write := (s.write + 1) % s.capacity })
        else none

/-- Embedding of `Store.Delete`: null the first slot whose event has the
given id; no-op when absent.  This operation cannot panic. -/
def Store.delete (s : Store) (id : String) : Option Err × Store :=
  match s.events.findIdx? (fun slot =>
      match slot with
      | some ev => ev.id == id
      | none => false) with
  | some pos => (none, { s with events := s.events.set pos none })
  | none => (none, s)

/-- The copy loop inside `Store.Resize`: walk the old slots, packing non-nil
events into the new array from position 0, stopping once the incremented
cursor reaches the new capacity.  `none` models the out-of-range panic
(which fires when the cursor already equals the new array's length at an
assignment, e.g. new capacity 0 with a non-empty store). -/
def resizeFill (capacity : Nat) :
    List (Option Event) → Nat → List (Option Event) → Option (List (Option Event) × Nat)
  | [], w, acc => some (acc, w)
  | slot :: rest, w, acc =>
    match slot with
    | none => resizeFill capacity rest w acc
    | some ev =>
      if w < acc.length then
        if capacity ≤ w + 1 then some (acc.set w (some ev), w + 1)
        else resizeFill capacity rest (w + 1) (acc.set w (some ev))
      else none

/-- Embedding of `Store.Resize`: rebuild the array at the new capacity,
preserving occupied slots in order; the cursor ends just past the last
preserved slot (which is `capacity` itself — not wrapped — when the new
array fills). -/
def Store.resize (s : Store) (capacity : Nat) : Option Store :=
  match resizeFill capacity s.events 0 (List.replicate capacity none) with
  | some (events2, w) =>
    some { s with events := events2, write := w, capacity := capacity }
  | none => none

/-- The comparator of `Store.Query`'s sort, as a boolean "may precede"
relation: `cmp.Compare(e2.CreatedAt, e1.CreatedAt) ≤ 0`. -/
def eventLe (a b : Event) : Bool :=
  decide (b.created_at ≤ a.created_at)

/-- The collection loop of `Store.Query`: walk the slots in order and
append every non-nil event matching at least one filter (the inner loop
breaks at the first matching filter, so each event is collected at most
once). -/
def collectMatches (fs : List Filter) : List (Option Event) → List Event
  | [] => []
  | slot :: rest =>
    match slot with
    | some ev =>
      if fs.any (fun f => f.matchesEv ev) then ev :: collectMatches fs rest
      else collectMatches fs rest
    | none => collectMatches fs rest

/-- Embedding of `Store.Query`: sanitize the filters, collect the matching
events, sort by descending `created_at`. -/
def Store.query (s : Store) (filters : List Filter) : Except Err (List Event) :=
  match s.sanitizeFilters filters with
  | (_, some err) => .error err
  | (fs, none) => .ok ((collectMatches fs s.events).mergeSort eventLe)

/-- The body of `Store.Count`'s inner loop: a non-nil slot whose event the
filter matches. -/
def slotMatch (f : Filter) (slot : Option Event) : Bool :=
  match slot with
  | some ev => f.matchesEv ev
  | none => false

/-- Embedding of `Store.Count`: zero filters yield count 0 with nil error;
otherwise sum, over the filters, the number of non-nil slots each filter
matches.  The filter policy is not consulted. -/
def Store.count (s : Store) (filters : List Filter) : Except Err Int :=
  if filters.length = 0 then .ok 0
  else .ok ((filters.map (fun f => s.events.countP (slotMatch f))).sum : Nat)

/-- Well-formedness of a store: the slot array has exactly `capacity` cells
and the cursor is in range.  `New`, `WithCapacity` (which rejects `n <  1`)
and every successful `Save`/`Replace`/`Delete` establish or preserve this. -/
def Store.WF (s : Store) : Prop :=
  s.events.length = s.capacity ∧ s.write < s.capacity

/-- Number of stored records carrying a given event id. -/
def storedWithId (s : Store) (id : String) : Nat :=
  s.events.countP (fun slot =>
    match slot with
    | some ev => ev.id == id
    | none => false)

/-- Sum of the `limit` fields of a filter list. -/
def sumLimits (fs : List Filter) : Int :=
  (fs.map Filter.limit).sum

/-- Byte-wise (codepoint lexicographic) string comparison, the order Go
applies to event ids. -/
def charListLe : List Char → List Char → Bool
  | [], _ => true
  | _ :: _, [] => false
  | a :: as, b :: bs => if a < b then true else if b < a then false else charListLe as bs

/-- The canonical result order the specification describes: descending
`created_at`, ascending `id` as tie-break among equal timestamps. -/
def specOrdered : List Event → Bool
  | a :: b :: rest =>
    (decide (b.created_at < a.created_at) ||
      (a.created_at == b.created_at && charListLe a.id.data b.id.data)) &&
    specOrdered (b :: rest)
  | _ => true

/-! Concrete fixtures used by witnesses and counterexamples. -/

/-- A store built by `New(WithCapacity c, WithFilterPolicy pass-through)`. -/
def passStore (c : Nat) : Store :=
  { newStore c with sanitizeFilters := passSanitize }

def evA : Event :=
  { id := "a", pubkey := "p", created_at := 1, kind := 1, tags := [], content := "", sig := "" }

def evB : Event :=
  { id := "b", pubkey := "p", created_at := 2, kind := 1, tags := [], content := "", sig := "" }

def evTieA : Event :=
  { id := "a", pubkey := "p", created_at := 5, kind := 1, tags := [], content := "", sig := "" }

def evTieB : Event :=
  { id := "b", pubkey := "p", created_at := 5, kind := 1, tags := [], content := "", sig := "" }

/-- A filter matching every event (as the empty go-nostr filter does). -/
def matchAll : Filter :=
  { matchesEv := fun _ => true, limit := 5, limitZero := false }

/-- A match-everything filter with limit 1. -/
def lim1Filter : Filter :=
  { matchesEv := fun _ => true, limit := 1, limitZero := false }

/-- A filter selecting kind-1 events. -/
def kind1Filter : Filter :=
  { matchesEv := fun ev => ev.kind == 1, limit := 5, limitZero := false }

/-! Helper lemmas. -/

lemma collectMatches_nil_filters :
    ∀ slots : List (Option Event), collectMatches [] slots = []
  | [] => rfl
  | slot :: rest => by
    cases slot with
    | none =>
      show collectMatches [] rest = []
      exact collectMatches_nil_filters rest
    | some ev =>
      show (if ([] : List Filter).any (fun f => f.matchesEv ev) then
          ev :: collectMatches [] rest else collectMatches [] rest) = []
      rw [List.any_nil, if_neg (by simp)]
      exact collectMatches_nil_filters rest

lemma countP_ge_two {α : Type} (p : α → Bool) :
    ∀ (l : List α) (i j : Nat), i < j →
      (∃ a, l[i]? = some a ∧ p a = true) →
      (∃ b, l[j]? = some b ∧ p b = true) →
      2 ≤ l.countP p
  | [], i, j, _, hi, _ => by
    obtain ⟨a, ha, _⟩ := hi
    simp at ha
  | x :: xs, 0, j + 1, _, hi, hj => by
    obtain ⟨a, ha, hpa⟩ := hi
    obtain ⟨b, hb, hpb⟩ := hj
    simp only [List.getElem?_cons_zero] at ha
    obtain rfl : x = a := by exact Option.some.inj ha
    rw [List.getElem?_cons_succ] at hb
    have hone : 0 < xs.countP p :=
      List.countP_pos_iff.mpr ⟨b, List.mem_iff_getElem?.mpr ⟨j, hb⟩, hpb⟩
    rw [List.countP_cons, hpa]
    simp only [eq_self_iff_true, if_true]
    omega
  | x :: xs, i + 1, j + 1, hij, hi, hj => by
    obtain ⟨a, ha, hpa⟩ := hi
    obtain ⟨b, hb, hpb⟩ := hj
    rw [List.getElem?_cons_succ] at ha hb
    have ih := countP_ge_two p xs i j (by omega) ⟨a, ha, hpa⟩ ⟨b, hb, hpb⟩
    rw [List.countP_cons]
    omega

/-! Claim C9. -/

/-- Claim C9: for every store state and every event whose kind is neither
replaceable nor addressable, `Replace` returns stored=false together with
the invalid-replacement error and leaves the store unchanged. -/
theorem replace_invalid_kind (s : Store) (e : Event)
    (h : isValidReplacement e.kind = false) :
    s.replace e = some (false, some .invalidReplacement, s) := by
  simp [Store.replace, h]

theorem replace_invalid_kind_witness :
    (newStore 1).replace evA = some (false, some .invalidReplacement, newStore 1) :=
  replace_invalid_kind (newStore 1) evA (by decide)

/-! Claim C3. -/

/-- A store whose filter policy is the default one returns no events from
`Query`, whatever the store contents and the argument filters. -/
lemma query_default_eq_nil (s : Store) (filters : List Filter)
    (h : s.sanitizeFilters = defaultSanitize) :
    s.query filters = .ok [] := by
  unfold Store.query
  rw [h]
  simp [defaultSanitize, collectMatches_nil_filters, List.mergeSort_nil]

/-- Claim C3: a store whose filter policy is the one `ephemeral.New`
installs by default replaces every argument filter list by the empty list,
so `Query` returns an empty event list and a nil error for every store
state and every filter list. -/
theorem query_default_policy (s : Store) (filters : List Filter)
    (h : s.sanitizeFilters = defaultSanitize) :
    s.query filters = .ok [] :=
  query_default_eq_nil s filters h

theorem query_default_policy_witness :
    (newStore 2).query [matchAll] = .ok [] :=
  query_default_policy (newStore 2) [matchAll] rfl

/-! Claim C10 (corrected): an empty filter list is accepted, not rejected. -/

/-- Counterexample to claim C10: on a concrete store, `Count` with zero
filters returns 0 with a nil error and `Query` with zero filters returns an
empty list with a nil error — neither returns an error. -/
theorem count_query_empty_filters_cex :
    ((newStore 1).count [] = .ok 0) ∧
    (∀ err, (newStore 1).count [] ≠ .error err) ∧
    ((newStore 1).query [] = .ok []) ∧
    (∀ err, (newStore 1).query [] ≠ .error err) := by
  have hq : (newStore 1).query [] = .ok [] := query_default_eq_nil (newStore 1) [] rfl
  refine ⟨rfl, ?_, hq, ?_⟩
  · intro err h
    rw [show (newStore 1).count [] = .ok 0 from rfl] at h
    exact Except.noConfusion h
  · intro err h
    rw [hq] at h
    exact Except.noConfusion h

/-- Claim C10 as amended: an empty filter list is accepted — `Count`
returns 0 with a nil error for every store state, and `Query` under the
default filter policy returns an empty list with a nil error. -/
theorem count_empty_filters_ok (s : Store)
    (h : s.sanitizeFilters = defaultSanitize) :
    s.count [] = .ok 0 ∧ s.query [] = .ok [] :=
  ⟨rfl, query_default_eq_nil s [] h⟩

theorem count_empty_filters_ok_witness :
    (newStore 3).count [] = .ok 0 ∧ (newStore 3).query [] = .ok [] :=
  count_empty_filters_ok (newStore 3) rfl

/-! Claim C2 (code bug): `Resize` can leave the cursor out of range. -/

/-- Claim C2, evaluated at a failing input: on a capacity-1 store holding
one event, `Resize(1)` terminates with the cursor equal to the capacity
(the copy loop increments before breaking and never wraps), and the next
`Save` aborts abnormally with an out-of-range index instead of returning a
nil error.  Likewise `Resize(0)` on the same store aborts inside the copy
loop itself. -/
theorem resize_then_save_panics :
    ((((newStore 1).save evA).bind (fun r => r.2.resize 1)).map Store.write = some 1) ∧
    ((((newStore 1).save evA).bind (fun r => r.2.resize 1)).bind
        (fun s2 => s2.save evB) = none) ∧
    (((newStore 1).save evA).bind (fun r => r.2.resize 0) = none) := by
  refine ⟨rfl, rfl, rfl⟩

/-! Claim C4 (corrected): `Save` is not idempotent on event id. -/

/-- Counterexample to claim C4: saving the same event twice into a fresh
capacity-2 store leaves two stored records with its id, not exactly one. -/
theorem save_twice_duplicates_cex :
    ((((newStore 2).save evA).bind (fun r => r.2.save evA)).map
        (fun r => storedWithId r.2 evA.id) = some 2) ∧
    ((((newStore 2).save evA).bind (fun r => r.2.save evA)).map
        (fun r => storedWithId r.2 evA.id) ≠ some 1) := by
  constructor
  · rfl
  · intro h
    rw [show (((newStore 2).save evA).bind (fun r => r.2.save evA)).map
        (fun r => storedWithId r.2 evA.id) = some 2 from rfl] at h
    exact absurd (Option.some.inj h) (by decide)

/-- Claim C4 as amended: `Save` writes unconditionally at the cursor and
never checks for a duplicate id, so two `Save` calls with the same event
leave (at least) two stored records with that id whenever the capacity is
at least 2: both the old cursor slot and its successor hold the event. -/
theorem save_twice_duplicates (s : Store) (e : Event) (hwf : s.WF)
    (h2 : 2 ≤ s.capacity) (hv : s.validateEvent e = none) :
    ∃ s2, ((s.save e).bind (fun r => r.2.save e)) = some (none, s2) ∧
      2 ≤ storedWithId s2 e.id := by
  obtain ⟨hlen, hw⟩ := hwf
  have hc0 : 0 < s.capacity := by omega
  have hsave1 : s.save e = some (none,
      { s with events := s.events.set s.write (some e)
               write := (s.write + 1) % s.capacity }) := by
    unfold Store.save
    rw [hv]
    rw [if_pos ⟨by omega, hc0⟩]
  set s1 : Store :=
    { s with events := s.events.set s.write (some e)
             write := (s.write + 1) % s.capacity } with hs1
  have hw1lt : s1.write < s1.events.length := by
    simp only [hs1, List.length_set]
    rw [hlen]
    exact Nat.mod_lt _ hc0
  have hsave2 : s1.save e = some (none,
      { s1 with events := s1.events.set s1.write (some e)
                write := (s1.write + 1) % s1.capacity }) := by
    unfold Store.save
    rw [show s1.validateEvent e = none from hv]
    rw [if_pos ⟨hw1lt, hc0⟩]
  set s2 : Store :=
    { s1 with events := s1.events.set s1.write (some e)
              write := (s1.write + 1) % s1.capacity } with hs2
  refine ⟨s2, ?_, ?_⟩
  · rw [hsave1]
    exact hsave2
  · have hne : s.write ≠ (s.write + 1) % s.capacity := by
      rcases Nat.lt_or_ge (s.write + 1) s.capacity with h | h
      · rw [Nat.mod_eq_of_lt h]
        omega
      · have hcap : s.write + 1 = s.capacity := by omega
        rw [hcap, Nat.mod_self]
        omega
    have hslotw : s2.events[s.write]? = some (some e) := by
      simp only [hs2, hs1]
      rw [List.getElem?_set_ne (Ne.symm hne), List.getElem?_set_self (by omega)]
    have hslotw1 : s2.events[(s.write + 1) % s.capacity]? = some (some e) := by
      simp only [hs2, hs1]
      rw [List.getElem?_set_self]
      rw [List.length_set, hlen]
      exact Nat.mod_lt _ hc0
    have hp : (fun slot =>
        match slot with
        | some ev => ev.id == e.id
        | none => false) (some e) = true := by simp
    unfold storedWithId
    rcases Nat.lt_or_gt_of_ne hne with h | h
    · exact countP_ge_two _ s2.events _ _ h ⟨some e, hslotw, hp⟩ ⟨some e, hslotw1, hp⟩
    · exact countP_ge_two _ s2.events _ _ h ⟨some e, hslotw1, hp⟩ ⟨some e, hslotw, hp⟩

theorem save_twice_duplicates_witness :
    ∃ s2, (((newStore 2).save evA).bind (fun r => r.2.save evA)) = some (none, s2) ∧
      2 ≤ storedWithId s2 evA.id :=
  save_twice_duplicates (newStore 2) evA (by constructor <;> decide) (by decide) rfl

/-! Claim C1: Replace semantics on replaceable/addressable kinds. -/

lemma findCandidate_none_iff (e : Event) :
    ∀ slots : List (Option Event), findCandidate e slots = none ↔
      ∀ (i : Nat) (st : Event), slots[i]? = some (some st) →
        isReplacementCandidate e st = false
  | [] => by simp [findCandidate]
  | slot :: rest => by
    have ih := findCandidate_none_iff e rest
    cases slot with
    | none =>
      rw [show findCandidate e (none :: rest) =
          (findCandidate e rest).map (fun p => (p.1 + 1, p.2)) from rfl]
      rw [Option.map_eq_none', ih]
      constructor
      · intro h i st hi
        cases i with
        | zero =>
          rw [List.getElem?_cons_zero] at hi
          exact Option.noConfusion (Option.some.inj hi)
        | succ n =>
          rw [List.getElem?_cons_succ] at hi
          exact h n st hi
      · intro h i st hi
        exact h (i + 1) st (by rw [List.getElem?_cons_succ]; exact hi)
    | some st0 =>
      by_cases hc : isReplacementCandidate e st0 = true
      · rw [show findCandidate e (some st0 :: rest) =
            (if isReplacementCandidate e st0 then some (0, st0)
              else (findCandidate e rest).map (fun p => (p.1 + 1, p.2))) from rfl]
        rw [if_pos hc]
        constructor
        · intro h
          exact Option.noConfusion h
        · intro h
          have h0 := h 0 st0 (by rw [List.getElem?_cons_zero])
          rw [hc] at h0
          exact Bool.noConfusion h0
      · rw [show findCandidate e (some st0 :: rest) =
            (if isReplacementCandidate e st0 then some (0, st0)
              else (findCandidate e rest).map (fun p => (p.1 + 1, p.2))) from rfl]
        rw [if_neg hc, Option.map_eq_none', ih]
        constructor
        · intro h i st hi
          cases i with
          | zero =>
            rw [List.getElem?_cons_zero] at hi
            have hst : st0 = st := Option.some.inj (Option.some.inj hi)
            subst hst
            exact Bool.of_not_eq_true hc
          | succ n =>
            rw [List.getElem?_cons_succ] at hi
            exact h n st hi
        · intro h i st hi
          exact h (i + 1) st (by rw [List.getElem?_cons_succ]; exact hi)

lemma findCandidate_some_spec (e : Event) :
    ∀ (slots : List (Option Event)) (i : Nat) (st : Event),
      findCandidate e slots = some (i, st) →
      slots[i]? = some (some st) ∧ isReplacementCandidate e st = true
  | [], _, _, h => by exact Option.noConfusion h
  | slot :: rest, i, st, h => by
    cases slot with
    | none =>
      rw [show findCandidate e (none :: rest) =
          (findCandidate e rest).map (fun p => (p.1 + 1, p.2)) from rfl] at h
      rw [Option.map_eq_some'] at h
      obtain ⟨⟨n, st2⟩, hfc, heq⟩ := h
      injection heq with hn hst
      subst hst
      obtain ⟨h1, h2⟩ := findCandidate_some_spec e rest n st2 hfc
      subst hn
      exact ⟨by rw [List.getElem?_cons_succ]; exact h1, h2⟩
    | some st0 =>
      rw [show findCandidate e (some st0 :: rest) =
          (if isReplacementCandidate e st0 then some (0, st0)
            else (findCandidate e rest).map (fun p => (p.1 + 1, p.2))) from rfl] at h
      by_cases hc : isReplacementCandidate e st0 = true
      · rw [if_pos hc] at h
        have heq := Option.some.inj h
        injection heq with hi hst
        subst hst
        subst hi
        exact ⟨by rw [List.getElem?_cons_zero], hc⟩
      · rw [if_neg hc, Option.map_eq_some'] at h
        obtain ⟨⟨n, st2⟩, hfc, heq⟩ := h
        injection heq with hn hst
        subst hst
        obtain ⟨h1, h2⟩ := findCandidate_some_spec e rest n st2 hfc
        subst hn
        exact ⟨by rw [List.getElem?_cons_succ]; exact h1, h2⟩

/-- A stored event `st` at slot `i` is the unique live event of `e`'s
identity category (the invariant the replacement protocol maintains). -/
def uniqueCandidate (s : Store) (e : Event) (i : Nat) (st : Event) : Prop :=
  s.events[i]? = some (some st) ∧ isReplacementCandidate e st = true ∧
  ∀ (j : Nat) (st2 : Event), s.events[j]? = some (some st2) →
    isReplacementCandidate e st2 = true → j = i

/-- Claim C1: for a well-formed store and an event of replaceable or
addressable kind passing validation, `Replace` behaves as the spec says:
with no stored event of the same identity category, the event is inserted
at the cursor and stored=true is reported; with a unique stored event of
the category that is strictly older, the event takes its slot and
stored=true is reported; with a unique stored event of the category whose
`created_at` is greater than or equal, the store is unchanged and
stored=false is reported — equal timestamps never replace. -/
theorem replace_spec (s : Store) (e : Event) (hwf : s.WF)
    (hk : isValidReplacement e.kind = true) (hv : s.validateEvent e = none) :
    ((∀ (i : Nat) (st : Event), s.events[i]? = some (some st) →
          isReplacementCandidate e st = false) →
        s.replace e = some (true, none,
          { s with events := s.events.set s.write (some e)
                   write := (s.write + 1) % s.capacity })) ∧
    (∀ (i : Nat) (st : Event), uniqueCandidate s e i st →
        st.created_at < e.created_at →
        s.replace e = some (true, none, { s with events := s.events.set i (some e) })) ∧
    (∀ (i : Nat) (st : Event), uniqueCandidate s e i st →
        e.created_at ≤ st.created_at →
        s.replace e = some (false, none, s)) := by
  obtain ⟨hlen, hw⟩ := hwf
  have hknot : ¬ (isValidReplacement e.kind = false) := by rw [hk]; simp
  have hfound : ∀ (i : Nat) (st : Event), findCandidate e s.events = some (i, st) →
      s.replace e = if st.created_at < e.created_at
        then some (true, none, { s with events := s.events.set i (some e) })
        else some (false, none, s) := by
    intro i st hfc
    unfold Store.replace
    rw [if_neg hknot, hv, hfc]
  refine ⟨?_, ?_, ?_⟩
  · intro hnone
    unfold Store.replace
    rw [if_neg hknot, hv, (findCandidate_none_iff e s.events).mpr hnone]
    rw [if_pos ⟨by omega, by omega⟩]
  · rintro i st ⟨hi, hcand, huniq⟩ hlt
    cases hfc : findCandidate e s.events with
    | none =>
      have := (findCandidate_none_iff e s.events).mp hfc i st hi
      rw [hcand] at this
      exact Bool.noConfusion this
    | some p =>
      obtain ⟨i2, st2⟩ := p
      obtain ⟨hi2, hcand2⟩ := findCandidate_some_spec e s.events i2 st2 hfc
      have hii : i2 = i := huniq i2 st2 hi2 hcand2
      subst hii
      rw [hi] at hi2
      have hst : st = st2 := Option.some.inj (Option.some.inj hi2)
      subst hst
      rw [hfound i2 st hfc, if_pos hlt]
  · rintro i st ⟨hi, hcand, huniq⟩ hle
    cases hfc : findCandidate e s.events with
    | none =>
      have := (findCandidate_none_iff e s.events).mp hfc i st hi
      rw [hcand] at this
      exact Bool.noConfusion this
    | some p =>
      obtain ⟨i2, st2⟩ := p
      obtain ⟨hi2, hcand2⟩ := findCandidate_some_spec e s.events i2 st2 hfc
      have hii : i2 = i := huniq i2 st2 hi2 hcand2
      subst hii
      rw [hi] at hi2
      have hst : st = st2 := Option.some.inj (Option.some.inj hi2)
      subst hst
      rw [hfound i2 st hfc, if_neg (by omega)]

/-- A concrete replaceable event (kind 0). -/
def rEv : Event :=
  { id := "ccc", pubkey := "p", created_at := 100, kind := 0, tags := [], content := "", sig := "" }

/-! Claim C5: ring-buffer wraparound. -/

/-- A sequence of `Save` calls, threading the store through each call. -/
def saveAll : Store → List Event → Option Store
  | s, [] => some s
  | s, e :: rest => (s.save e).bind (fun r => saveAll r.2 rest)

/-- The store produced by one successful `Save` write. -/
def bufWrite (s : Store) (e : Event) : Store :=
  { s with events := s.events.set s.write (some e)
           write := (s.write + 1) % s.capacity }

lemma save_eq (s : Store) (e : Event) (hwf : s.WF) (hv : s.validateEvent e = none) :
    s.save e = some (none, bufWrite s e) := by
  obtain ⟨hlen, hw⟩ := hwf
  unfold Store.save
  rw [hv, if_pos ⟨by omega, by omega⟩]
  rfl

lemma bufWrite_WF (s : Store) (e : Event) (hwf : s.WF) : (bufWrite s e).WF := by
  obtain ⟨hlen, hw⟩ := hwf
  constructor
  · rw [show (bufWrite s e).events = s.events.set s.write (some e) from rfl]
    rw [List.length_set]
    exact hlen
  · exact Nat.mod_lt _ (by omega)

lemma saveAll_append (a b : List Event) :
    ∀ s : Store, saveAll s (a ++ b) = (saveAll s a).bind (fun s2 => saveAll s2 b) := by
  induction a with
  | nil => intro s; rfl
  | cons e rest ih =>
    intro s
    show (s.save e).bind (fun r => saveAll r.2 (rest ++ b)) =
      ((s.save e).bind (fun r => saveAll r.2 rest)).bind (fun s2 => saveAll s2 b)
    cases s.save e with
    | none => rfl
    | some r =>
      rw [Option.some_bind, Option.some_bind, ih]

lemma saveAll_ok :
    ∀ (l : List Event) (s : Store), s.WF → (∀ e ∈ l, s.validateEvent e = none) →
      ∃ s2, saveAll s l = some s2 ∧ s2.WF ∧ s2.capacity = s.capacity ∧
        s2.events.length = s.events.length ∧
        s2.validateEvent = s.validateEvent ∧ s2.sanitizeFilters = s.sanitizeFilters ∧
        s2.write = (s.write + l.length) % s.capacity
  | [], s, hwf, _ =>
    ⟨s, rfl, hwf, rfl, rfl, rfl, rfl,
      by rw [List.length_nil, Nat.add_zero, Nat.mod_eq_of_lt hwf.2]⟩
  | e :: rest, s, hwf, hv => by
    have hse := save_eq s e hwf (hv e (List.mem_cons_self e rest))
    have hwf1 := bufWrite_WF s e hwf
    have hv1 : ∀ e2 ∈ rest, (bufWrite s e).validateEvent e2 = none :=
      fun e2 h2 => hv e2 (List.mem_cons_of_mem e h2)
    obtain ⟨s2, h1, h2, hcap, hevlen, hval, hsan, hwr⟩ := saveAll_ok rest (bufWrite s e) hwf1 hv1
    refine ⟨s2, ?_, h2, hcap, ?_, hval, hsan, ?_⟩
    · unfold saveAll
      rw [hse, Option.some_bind]
      exact h1
    · rw [hevlen]
      exact List.length_set ..
    · rw [hwr]
      rw [show (bufWrite s e).write = (s.write + 1) % s.capacity from rfl,
        show (bufWrite s e).capacity = s.capacity from rfl,
        Nat.mod_add_mod]
      have harith : s.write + 1 + rest.length = s.write + (rest.length + 1) := by omega
      rw [harith]
      rfl

lemma add_mod_ne (w k C : Nat) (hk1 : 1 ≤ k) (hk2 : k < C) :
    (w + k) % C ≠ w % C := by
  intro h
  have h2 : w + k ≡ w + 0 [MOD C] := by
    unfold Nat.ModEq
    rw [Nat.add_zero]
    exact h
  have h3 : k ≡ 0 [MOD C] := Nat.ModEq.add_left_cancel (Nat.ModEq.refl w) h2
  have h4 : k % C = 0 := by
    unfold Nat.ModEq at h3
    rw [Nat.zero_mod] at h3
    exact h3
  rw [Nat.mod_eq_of_lt hk2] at h4
  omega

/-- Sliding-window characterization of at most `capacity` consecutive
`Save` calls: the `j`-th saved event ends up in slot `(write + j) mod C`,
and slots not written keep their previous content. -/
lemma saveAll_window :
    ∀ (m : List Event) (s s2 : Store), s.WF →
      (∀ e ∈ m, s.validateEvent e = none) → m.length ≤ s.capacity →
      saveAll s m = some s2 →
      s2.events.length = s.events.length ∧
      (∀ (j : Nat) (ev : Event), m[j]? = some ev →
          s2.events[(s.write + j) % s.capacity]? = some (some ev)) ∧
      (∀ i : Nat, (∀ j : Nat, j < m.length → (s.write + j) % s.capacity ≠ i) →
          s2.events[i]? = s.events[i]?)
  | [], s, s2, _, _, _, hsa => by
    have hss : s = s2 := Option.some.inj hsa
    subst hss
    refine ⟨rfl, ?_, fun _ _ => rfl⟩
    intro j ev hj
    rw [List.getElem?_nil] at hj
    exact Option.noConfusion hj
  | e :: rest, s, s2, hwf, hv, hm, hsa => by
    obtain ⟨hlen, hw⟩ := hwf
    have hC : 0 < s.capacity := by omega
    have hse := save_eq s e ⟨hlen, hw⟩ (hv e (List.mem_cons_self e rest))
    rw [show saveAll s (e :: rest) = (s.save e).bind (fun r => saveAll r.2 rest) from rfl,
      hse, Option.some_bind] at hsa
    have hwf1 := bufWrite_WF s e ⟨hlen, hw⟩
    have hv1 : ∀ e2 ∈ rest, (bufWrite s e).validateEvent e2 = none :=
      fun e2 h2 => hv e2 (List.mem_cons_of_mem e h2)
    have hm1 : rest.length ≤ (bufWrite s e).capacity := by
      rw [show (bufWrite s e).capacity = s.capacity from rfl]
      rw [List.length_cons] at hm
      omega
    obtain ⟨hlen2, hi', hii'⟩ := saveAll_window rest (bufWrite s e) s2 hwf1 hv1 hm1 hsa
    have hlenbw : (bufWrite s e).events.length = s.events.length := List.length_set ..
    have hrestlt : rest.length < s.capacity := by
      rw [List.length_cons] at hm
      omega
    refine ⟨by rw [hlen2]; exact hlenbw, ?_, ?_⟩
    · intro j ev hj
      cases j with
      | zero =>
        rw [List.getElem?_cons_zero] at hj
        have hev : e = ev := Option.some.inj hj
        subst hev
        rw [Nat.add_zero, Nat.mod_eq_of_lt hw]
        have hbw : (bufWrite s e).events[s.write]? = some (some e) := by
          rw [show (bufWrite s e).events = s.events.set s.write (some e) from rfl]
          exact List.getElem?_set_self (by omega)
        rw [← hbw]
        apply hii'
        intro j hjlt
        rw [show (bufWrite s e).write = (s.write + 1) % s.capacity from rfl,
          show (bufWrite s e).capacity = s.capacity from rfl,
          Nat.mod_add_mod]
        have harith : s.write + 1 + j = s.write + (j + 1) := by omega
        rw [harith]
        have := add_mod_ne s.write (j + 1) s.capacity (by omega) (by omega)
        rw [Nat.mod_eq_of_lt hw] at this
        exact this
      | succ n =>
        rw [List.getElem?_cons_succ] at hj
        have := hi' n ev hj
        rw [show (bufWrite s e).write = (s.write + 1) % s.capacity from rfl,
          show (bufWrite s e).capacity = s.capacity from rfl,
          Nat.mod_add_mod] at this
        have harith : s.write + 1 + n = s.write + (n + 1) := by omega
        rw [harith] at this
        exact this
    · intro i hskip
      have h1 : s2.events[i]? = (bufWrite s e).events[i]? := by
        apply hii'
        intro j hjlt
        rw [show (bufWrite s e).write = (s.write + 1) % s.capacity from rfl,
          show (bufWrite s e).capacity = s.capacity from rfl,
          Nat.mod_add_mod]
        have harith : s.write + 1 + j = s.write + (j + 1) := by omega
        rw [harith]
        apply hskip
        rw [List.length_cons]
        omega
      have h2 : (bufWrite s e).events[i]? = s.events[i]? := by
        rw [show (bufWrite s e).events = s.events.set s.write (some e) from rfl]
        apply List.getElem?_set_ne
        have := hskip 0 (by rw [List.length_cons]; omega)
        rw [Nat.add_zero, Nat.mod_eq_of_lt hw] at this
        exact this
      rw [h1, h2]

lemma collectMatches_map_some (f : Filter) (hf : ∀ ev, f.matchesEv ev = true) :
    ∀ m : List Event, collectMatches [f] (m.map some) = m
  | [] => rfl
  | x :: rest => by
    show (if [f].any (fun f2 => f2.matchesEv x) then
        x :: collectMatches [f] (rest.map some)
        else collectMatches [f] (rest.map some)) = x :: rest
    rw [List.any_cons, List.any_nil, hf, Bool.or_false, if_pos rfl]
    exact congrArg (x :: ·) (collectMatches_map_some f hf rest)

/-- Claim C5: saving `N ≥ C` distinct events into a well-formed store of
capacity `C` (with validation passing and no other operation interleaved)
leaves `Size() = C`; when `N > C`, the slot that received the `(N-C)`-th
saved event (slot `(write + (N-C-1)) mod C`) ends up holding the `N`-th
saved event; and a `Query` through a pass-through filter policy with a
filter matching everything returns exactly the `C` most recently saved
events (a permutation of the last `C` elements of the sequence). -/
theorem ring_window (s : Store) (l : List Event) (f : Filter)
    (hwf : s.WF)
    (hv : ∀ e ∈ l, s.validateEvent e = none)
    (hC : s.capacity ≤ l.length)
    (hnd : (l.map Event.id).Nodup)
    (hf : ∀ ev, f.matchesEv ev = true)
    (hs : s.sanitizeFilters = passSanitize) :
    ∃ s2, saveAll s l = some s2 ∧
      s2.size = s.capacity ∧
      (s.capacity < l.length →
          s2.events[(s.write + (l.length - s.capacity - 1)) % s.capacity]? =
            (l[l.length - 1]?).map some) ∧
      ∃ res, s2.query [f] = .ok res ∧ res.Perm (l.drop (l.length - s.capacity)) := by
  obtain ⟨hlen, hw⟩ := hwf
  have hC0 : 0 < s.capacity := by omega
  have hsplit : l.take (l.length - s.capacity) ++ l.drop (l.length - s.capacity) = l :=
    List.take_append_drop _ l
  have hl1len : (l.take (l.length - s.capacity)).length = l.length - s.capacity := by
    rw [List.length_take]
    omega
  have hl2len : (l.drop (l.length - s.capacity)).length = s.capacity := by
    rw [List.length_drop]
    omega
  have hv1 : ∀ e ∈ l.take (l.length - s.capacity), s.validateEvent e = none :=
    fun e he => hv e (List.take_subset _ _ he)
  have hv2 : ∀ e ∈ l.drop (l.length - s.capacity), s.validateEvent e = none :=
    fun e he => hv e (List.drop_subset _ _ he)
  obtain ⟨s1, hsa1, hwf1, hcap1, hevlen1, hval1, hsan1, hwr1⟩ :=
    saveAll_ok (l.take (l.length - s.capacity)) s ⟨hlen, hw⟩ hv1
  have hv2' : ∀ e ∈ l.drop (l.length - s.capacity), s1.validateEvent e = none := by
    rw [hval1]
    exact hv2
  have hm2 : (l.drop (l.length - s.capacity)).length ≤ s1.capacity := by
    rw [hcap1, hl2len]
  obtain ⟨s2, hsa2, hwf2, hcap2, hevlen2, hval2, hsan2, hwr2⟩ :=
    saveAll_ok (l.drop (l.length - s.capacity)) s1 hwf1 hv2'
  have hsa : saveAll s l = some s2 := by
    rw [← hsplit, saveAll_append, hsa1, Option.some_bind, hsa2]
  obtain ⟨hlen22, hi2, hii2⟩ :=
    saveAll_window (l.drop (l.length - s.capacity)) s1 s2 hwf1 hv2' hm2 hsa2
  have hw1lt : s1.write < s.capacity := by
    rw [← hcap1]
    exact hwf1.2
  have hs2len : s2.events.length = s.capacity := by
    rw [hlen22, hevlen1, hlen]
  -- the slot array after the saves is a rotation of the last `C` events
  have hevents : s2.events =
      ((l.drop (l.length - s.capacity)).rotate (s.capacity - s1.write)).map some := by
    apply List.ext_getElem?
    intro n
    by_cases hn : n < s.capacity
    · have hjlt : (n + (s.capacity - s1.write)) % s.capacity <
          (l.drop (l.length - s.capacity)).length := by
        rw [hl2len]
        exact Nat.mod_lt _ hC0
      have hl2j := List.getElem?_eq_getElem hjlt
      have hslot := hi2 ((n + (s.capacity - s1.write)) % s.capacity) _ hl2j
      rw [hcap1] at hslot
      have hidx : (s1.write + (n + (s.capacity - s1.write)) % s.capacity) % s.capacity
          = n := by
        rw [Nat.add_mod_mod]
        have harith : s1.write + (n + (s.capacity - s1.write)) = n + s.capacity := by
          omega
        rw [harith, Nat.add_mod_right, Nat.mod_eq_of_lt hn]
      rw [hidx] at hslot
      rw [hslot]
      rw [List.getElem?_map]
      rw [List.getElem?_rotate (by rw [hl2len]; exact hn)]
      rw [hl2len, hl2j, Option.map_some']
    · rw [List.getElem?_eq_none (by rw [hs2len]; omega)]
      rw [List.getElem?_eq_none
        (by rw [List.length_map, List.length_rotate, hl2len]; omega)]
  refine ⟨s2, hsa, ?_, ?_, ?_⟩
  · unfold Store.size
    rw [hevents, List.countP_map]
    rw [show ((fun slot => slot.isSome) ∘ some : Event → Bool) = fun _ => true from rfl]
    rw [List.countP_true, List.length_rotate, hl2len]
  · intro hlt
    have hl2last : (l.drop (l.length - s.capacity))[s.capacity - 1]? =
        l[l.length - 1]? := by
      rw [List.getElem?_drop]
      have harith : l.length - s.capacity + (s.capacity - 1) = l.length - 1 := by
        omega
      rw [harith]
    obtain ⟨lastEv, hlastEv⟩ : ∃ ev, l[l.length - 1]? = some ev :=
      ⟨_, List.getElem?_eq_getElem (by omega)⟩
    have hslot := hi2 (s.capacity - 1) lastEv (by rw [hl2last]; exact hlastEv)
    rw [hcap1] at hslot
    have hidx : (s1.write + (s.capacity - 1)) % s.capacity =
        (s.write + (l.length - s.capacity - 1)) % s.capacity := by
      rw [hwr1, hl1len, Nat.mod_add_mod]
      have harith : s.write + (l.length - s.capacity) + (s.capacity - 1) =
          s.write + (l.length - s.capacity - 1) + s.capacity := by
        omega
      rw [harith, Nat.add_mod_right]
    rw [hidx] at hslot
    rw [hslot, hlastEv, Option.map_some']
  · refine ⟨(collectMatches [f] s2.events).mergeSort eventLe, ?_, ?_⟩
    · have hsanpass : s2.sanitizeFilters = passSanitize := by
        rw [hsan2, hsan1, hs]
      unfold Store.query
      rw [hsanpass]
      rfl
    · have hcoll : collectMatches [f] s2.events =
          (l.drop (l.length - s.capacity)).rotate (s.capacity - s1.write) := by
        rw [hevents]
        exact collectMatches_map_some f hf _
      rw [hcoll]
      exact (List.mergeSort_perm _ _).trans (List.rotate_perm _ _)

theorem replace_spec_witness :
    (newStore 2).replace rEv = some (true, none,
      { newStore 2 with events := (newStore 2).events.set 0 (some rEv), write := 1 % 2 }) :=
  (replace_spec (newStore 2) rEv ⟨by decide, by decide⟩ (by decide) rfl).1
    (fun i st h => by
      rw [show (newStore 2).events = List.replicate 2 none from rfl,
        List.getElem?_replicate] at h
      split at h
      · exact Option.noConfusion (Option.some.inj h)
      · exact Option.noConfusion h)

/-! Fixtures for the ring-buffer scenario (spec Scenario B). -/

def rbE1 : Event :=
  { id := "e1", pubkey := "p", created_at := 1, kind := 1, tags := [], content := "", sig := "" }

def rbE2 : Event :=
  { id := "e2", pubkey := "p", created_at := 2, kind := 1, tags := [], content := "", sig := "" }

def rbE3 : Event :=
  { id := "e3", pubkey := "p", created_at := 3, kind := 1, tags := [], content := "", sig := "" }

def rbE4 : Event :=
  { id := "e4", pubkey := "p", created_at := 4, kind := 1, tags := [], content := "", sig := "" }

theorem ring_window_witness :
    ∃ s2, saveAll (passStore 3) [rbE1, rbE2, rbE3, rbE4] = some s2 ∧
      s2.size = 3 ∧
      (3 < 4 → s2.events[0]? = some (some rbE4)) ∧
      ∃ res, s2.query [matchAll] = .ok res ∧ res.Perm [rbE2, rbE3, rbE4] :=
  ring_window (passStore 3) [rbE1, rbE2, rbE3, rbE4] matchAll
    ⟨by decide, by decide⟩ (fun _ _ => rfl) (by decide) (by decide)
    (fun _ => rfl) rfl

/-! Claim C6 (corrected): the sort has no id tie-break. -/

/-- The concrete store reached by saving, through a pass-through filter
policy, two events with equal `created_at` and descending ids. -/
def c6store : Store :=
  { events := [some evTieB, some evTieA], write := 0, capacity := 2,
    validateEvent := defaultValidate, sanitizeFilters := passSanitize }

/-- Counterexample to claim C6: the comparator passed to the sort reads
only `created_at`, so two stored events with equal timestamps come back in
scan order (here descending ids "b", "a"), not in the claimed canonical
order with ascending id as tie-break. -/
theorem query_no_id_tiebreak_cex :
    (((passStore 2).save evTieB).bind (fun r => r.2.save evTieA) = some (none, c6store)) ∧
    c6store.query [matchAll] = .ok [evTieB, evTieA] ∧
    specOrdered [evTieB, evTieA] = false := by
  refine ⟨rfl, ?_, by decide⟩
  show Except.ok ((collectMatches [matchAll] c6store.events).mergeSort eventLe) =
    Except.ok ([evTieB, evTieA] : List Event)
  rw [show collectMatches [matchAll] c6store.events = [evTieB, evTieA] from rfl]
  rw [List.mergeSort_of_sorted (by decide)]

/-- Claim C6 as amended: `Query` results are sorted by descending
`created_at` only; events with equal `created_at` are left in whatever
relative order the sort produces, with no id tie-break. -/
theorem query_sorted_desc (s : Store) (fs : List Filter) (l : List Event)
    (h : s.query fs = .ok l) :
    l.Pairwise (fun a b => b.created_at ≤ a.created_at) := by
  unfold Store.query at h
  rcases hsan : s.sanitizeFilters fs with ⟨fs2, err⟩
  rw [hsan] at h
  cases err with
  | some e =>
    exact Except.noConfusion (show Except.error e = Except.ok l from h)
  | none =>
    have h2 : (collectMatches fs2 s.events).mergeSort eventLe = l :=
      Except.ok.inj (show Except.ok _ = Except.ok l from h)
    have htrans : ∀ a b c : Event, eventLe a b = true → eventLe b c = true →
        eventLe a c = true := by
      intro a b c hab hbc
      unfold eventLe at *
      have h1 := of_decide_eq_true hab
      have h3 := of_decide_eq_true hbc
      exact decide_eq_true (by omega)
    have htotal : ∀ a b : Event, (eventLe a b || eventLe b a) = true := by
      intro a b
      unfold eventLe
      rcases Int.le_total b.created_at a.created_at with h1 | h1
      · rw [decide_eq_true h1, Bool.true_or]
      · rw [decide_eq_true h1, Bool.or_true]
    have hsorted := List.sorted_mergeSort htrans htotal (collectMatches fs2 s.events)
    rw [h2] at hsorted
    exact hsorted.imp (fun hab => of_decide_eq_true hab)

theorem query_sorted_desc_witness :
    ([evTieB, evTieA] : List Event).Pairwise
      (fun a b => b.created_at ≤ a.created_at) :=
  query_sorted_desc c6store [matchAll] [evTieB, evTieA] (by
    show Except.ok ((collectMatches [matchAll] c6store.events).mergeSort eventLe) =
      Except.ok ([evTieB, evTieA] : List Event)
    rw [show collectMatches [matchAll] c6store.events = [evTieB, evTieA] from rfl]
    rw [List.mergeSort_of_sorted (by decide)])

/-! Claim C7 (corrected): `Query` enforces no limit at all. -/

/-- The concrete store reached by saving two events (descending timestamps)
through a pass-through filter policy. -/
def c7store : Store :=
  { events := [some evB, some evA], write := 0, capacity := 2,
    validateEvent := defaultValidate, sanitizeFilters := passSanitize }

/-- Counterexample to claim C7: with a single filter of limit 1 matching
both stored events, `Query` returns 2 events — more than the sum of the
filters' limits.  The scan in this `Query` has no cap. -/
theorem query_ignores_limits_cex :
    (((passStore 2).save evB).bind (fun r => r.2.save evA) = some (none, c7store)) ∧
    c7store.query [lim1Filter] = .ok [evB, evA] ∧
    sumLimits [lim1Filter] = 1 ∧
    ¬ ((([evB, evA] : List Event).length : Int) ≤ sumLimits [lim1Filter]) := by
  refine ⟨rfl, ?_, rfl, by decide⟩
  show Except.ok ((collectMatches [lim1Filter] c7store.events).mergeSort eventLe) =
    Except.ok ([evB, evA] : List Event)
  rw [show collectMatches [lim1Filter] c7store.events = [evB, evA] from rfl]
  rw [List.mergeSort_of_sorted (by decide)]

/-- Claim C7 as amended: `Query` ignores the filters' limits entirely — it
returns every occupied event matching at least one sanitized filter
(a permutation of the uncapped scan), with length equal to the number of
matching occupied slots. -/
theorem query_ignores_limits (s : Store) (fs fs2 : List Filter)
    (h : s.sanitizeFilters fs = (fs2, none)) :
    ∃ l, s.query fs = .ok l ∧ l.Perm (collectMatches fs2 s.events) ∧
      l.length = (collectMatches fs2 s.events).length := by
  refine ⟨(collectMatches fs2 s.events).mergeSort eventLe, ?_, ?_, ?_⟩
  · unfold Store.query
    rw [h]
  · exact List.mergeSort_perm _ _
  · exact (List.mergeSort_perm _ _).length_eq

theorem query_ignores_limits_witness :
    ∃ l, c7store.query [lim1Filter] = .ok l ∧
      l.Perm (collectMatches [lim1Filter] c7store.events) ∧
      l.length = (collectMatches [lim1Filter] c7store.events).length :=
  query_ignores_limits c7store [lim1Filter] [lim1Filter] rfl

/-! Claim C8: Query/Count agreement. -/

/-- A non-nil slot whose event matches at least one of the filters — the
collection condition of `Query`'s scan. -/
def slotAnyMatch (fs : List Filter) (slot : Option Event) : Bool :=
  match slot with
  | some ev => fs.any (fun f => f.matchesEv ev)
  | none => false

lemma sum_map_zero : ∀ fs : List Filter, (fs.map (fun _ => (0 : Nat))).sum = 0
  | [] => rfl
  | _ :: fs => by
    rw [List.map_cons, List.sum_cons, sum_map_zero fs]

lemma sum_map_add (g h : Filter → Nat) :
    ∀ fs : List Filter,
      (fs.map (fun f => g f + h f)).sum = (fs.map g).sum + (fs.map h).sum
  | [] => rfl
  | f :: fs => by
    rw [List.map_cons, List.map_cons, List.map_cons,
      List.sum_cons, List.sum_cons, List.sum_cons, sum_map_add g h fs]
    omega

lemma sum_indicator (p : Filter → Bool) :
    ∀ fs : List Filter, (fs.map (fun f => if p f then 1 else 0)).sum = fs.countP p
  | [] => rfl
  | f :: fs => by
    rw [List.map_cons, List.sum_cons, List.countP_cons, sum_indicator p fs]
    omega

/-- Exchanging the two loops of `Count`: when no stored event matches more
than one filter, the per-filter tallies sum to the number of slots
matching at least one filter. -/
lemma count_sum_exchange (fs : List Filter) :
    ∀ slots : List (Option Event),
      (∀ ev : Event, some ev ∈ slots → fs.countP (fun f => f.matchesEv ev) ≤ 1) →
      (fs.map (fun f => slots.countP (slotMatch f))).sum =
        slots.countP (slotAnyMatch fs)
  | [], _ => by
    rw [List.countP_nil]
    rw [show (fun f : Filter => List.countP (slotMatch f) []) = fun _ => (0 : Nat) from
      funext (fun f => List.countP_nil _)]
    exact sum_map_zero fs
  | slot :: slots, hdisj => by
    rw [show (fun f : Filter => List.countP (slotMatch f) (slot :: slots)) =
        fun f => List.countP (slotMatch f) slots + if slotMatch f slot then 1 else 0 from
      funext (fun f => List.countP_cons _ _ _)]
    rw [sum_map_add, sum_indicator, List.countP_cons,
      count_sum_exchange fs slots
        (fun ev hev => hdisj ev (List.mem_cons_of_mem slot hev))]
    have hlast : fs.countP (fun f => slotMatch f slot) =
        if slotAnyMatch fs slot = true then 1 else 0 := by
      cases slot with
      | none =>
        rw [show (fun f : Filter => slotMatch f none) = fun _ => false from rfl]
        rw [show slotAnyMatch fs none = false from rfl]
        rw [if_neg (by simp)]
        rw [List.countP_eq_zero]
        intro f _
        simp
      | some ev =>
        rw [show (fun f : Filter => slotMatch f (some ev)) =
            fun f => f.matchesEv ev from rfl]
        rw [show slotAnyMatch fs (some ev) = fs.any (fun f => f.matchesEv ev) from rfl]
        by_cases hany : fs.any (fun f => f.matchesEv ev) = true
        · have h1 : 0 < fs.countP (fun f => f.matchesEv ev) :=
            List.countP_pos_iff.mpr (List.any_eq_true.mp hany)
          have h2 := hdisj ev (List.mem_cons_self (some ev) slots)
          rw [hany, if_pos rfl]
          omega
        · have h0 : fs.countP (fun f => f.matchesEv ev) = 0 := by
            rw [List.countP_eq_zero]
            intro f hf hmatch
            exact hany (List.any_eq_true.mpr ⟨f, hf, hmatch⟩)
          rw [Bool.of_not_eq_true hany, if_neg (by simp), h0]
    rw [hlast]

lemma collectMatches_cons_some (fs : List Filter) (ev : Event)
    (rest : List (Option Event)) :
    collectMatches fs (some ev :: rest) =
      if fs.any (fun f => f.matchesEv ev)
        then ev :: collectMatches fs rest
        else collectMatches fs rest := rfl

lemma collectMatches_length (fs : List Filter) :
    ∀ slots : List (Option Event),
      (collectMatches fs slots).length = slots.countP (slotAnyMatch fs)
  | [] => rfl
  | slot :: rest => by
    rw [List.countP_cons]
    cases slot with
    | none =>
      rw [show collectMatches fs (none :: rest) = collectMatches fs rest from rfl,
        collectMatches_length fs rest,
        show slotAnyMatch fs none = false from rfl, if_neg (by simp)]
      omega
    | some ev =>
      rw [collectMatches_cons_some,
        show slotAnyMatch fs (some ev) = fs.any (fun f => f.matchesEv ev) from rfl]
      by_cases hm : fs.any (fun f => f.matchesEv ev) = true
      · rw [if_pos hm, hm, if_pos rfl, List.length_cons, collectMatches_length fs rest]
      · rw [if_neg hm, Bool.of_not_eq_true hm, if_neg (by simp),
          collectMatches_length fs rest]
        omega

/-- Claim C8 as amended: `Count` agrees with `Query`'s result count when
the store's filter policy passes the filters through unchanged and no
stored event matches more than one filter; in general `Count` sums
per-filter tallies (over-counting events matching several filters) while
`Query` collects each matching event once. -/
theorem count_agrees_query_when_disjoint (s : Store) (fs : List Filter)
    (hpass : s.sanitizeFilters fs = (fs, none))
    (hdisj : ∀ ev : Event, some ev ∈ s.events →
        fs.countP (fun f => f.matchesEv ev) ≤ 1) :
    ∃ l, s.query fs = .ok l ∧ s.count fs = .ok (l.length : Int) := by
  refine ⟨(collectMatches fs s.events).mergeSort eventLe, ?_, ?_⟩
  · unfold Store.query
    rw [hpass]
  · have hlen : ((collectMatches fs s.events).mergeSort eventLe).length =
        s.events.countP (slotAnyMatch fs) := by
      rw [(List.mergeSort_perm _ _).length_eq, collectMatches_length]
    rw [hlen]
    unfold Store.count
    by_cases hfs : fs.length = 0
    · rw [if_pos hfs]
      have hfs0 : fs = [] := List.length_eq_zero.mp hfs
      subst hfs0
      have h0 : s.events.countP (slotAnyMatch []) = 0 := by
        rw [List.countP_eq_zero]
        intro slot _
        cases slot <;> simp [slotAnyMatch]
      rw [h0]
      rfl
    · rw [if_neg hfs, count_sum_exchange fs s.events hdisj]

/-- The concrete store reached by saving one kind-1 event through a
pass-through filter policy. -/
def c8store : Store :=
  { events := [some evA], write := 0, capacity := 1,
    validateEvent := defaultValidate, sanitizeFilters := passSanitize }

/-- The same store under the default filter policy. -/
def c8storeD : Store :=
  { events := [some evA], write := 0, capacity := 1,
    validateEvent := defaultValidate, sanitizeFilters := defaultSanitize }

/-- Counterexample to claim C8: one stored event matching two filters
whose limits (5) are far above the match count (1); `Count` returns 2 while
`Query` returns 1 event — `Count` sums per-filter tallies.  Moreover
`Count` never consults the filter policy while `Query` does: under the
default policy, `Count` of one match-all filter returns 1 while `Query`
returns no events at all. -/
theorem count_overcounts_cex :
    ((passStore 1).save evA = some (none, c8store)) ∧
    c8store.count [matchAll, kind1Filter] = .ok 2 ∧
    c8store.query [matchAll, kind1Filter] = .ok [evA] ∧
    matchAll.limit = 5 ∧ kind1Filter.limit = 5 ∧
    ¬ ((2 : Int) = (([evA] : List Event).length : Int)) ∧
    ((newStore 1).save evA = some (none, c8storeD)) ∧
    c8storeD.count [matchAll] = .ok 1 ∧
    c8storeD.query [matchAll] = .ok [] ∧
    ¬ ((1 : Int) = (([] : List Event).length : Int)) := by
  refine ⟨rfl, rfl, ?_, rfl, rfl, by decide, rfl, rfl, ?_, by decide⟩
  · show Except.ok
        ((collectMatches [matchAll, kind1Filter] c8store.events).mergeSort eventLe) =
      Except.ok ([evA] : List Event)
    rw [show collectMatches [matchAll, kind1Filter] c8store.events = [evA] from rfl]
    rw [List.mergeSort_of_sorted (by decide)]
  · show Except.ok ((collectMatches [] c8storeD.events).mergeSort eventLe) =
      Except.ok ([] : List Event)
    rw [collectMatches_nil_filters, List.mergeSort_nil]

theorem count_agrees_query_witness :
    ∃ l, c8store.query [matchAll] = .ok l ∧
      c8store.count [matchAll] = .ok (l.length : Int) :=
  count_agrees_query_when_disjoint c8store [matchAll] rfl
    (fun ev _ => by
      rw [List.countP_cons, List.countP_nil,
        show matchAll.matchesEv ev = true from rfl, if_pos rfl])

end Nastro
